import Mathlib

/-!
Verification of the statiko static-site generator's rendering pipeline
(src/main.go, error-returning revision).

The document tree, tree walk, field extraction, date-footer injection,
listing-page synthesis and the per-file pipeline are embedded as Lean
functions.  External collaborators (the gomarkdown parser and HTML
renderer, the Go html/template engine, the regexp engine and the
filesystem) are passed in as function parameters of an `Env` record, so
the pipeline's control flow and data flow are modelled exactly while the
collaborators stay abstract.  Go standard-library string and path
helpers (strings.TrimPrefix, strings.TrimSuffix, filepath.Ext,
filepath.Join, path.Clean, filepath.Split) are modelled character-wise
following their documented semantics; the paths in play are ASCII, so
the byte/char distinction is immaterial.
-/

namespace Statiko

/-! ## Document tree (gomarkdown ast.Node, restricted to the variants the
pipeline inspects or builds: containers carry an ordered child list,
leaves carry literal bytes). -/

inductive MDNode where
  | document (children : List MDNode)
  | heading (level : Nat) (children : List MDNode)
  | paragraph (children : List MDNode)
  | blockQuote (children : List MDNode)
  | list (children : List MDNode)
  | listItem (children : List MDNode)
  | emphasis (children : List MDNode)
  | link (destination : String) (children : List MDNode)
  | text (literal : String)
  | codeBlock (literal : String)
  | horizontalRule

/-- `Node.GetChildren`: containers hold an ordered child list, leaves none. -/
def childrenOf : MDNode → List MDNode
  | .document cs => cs
  | .heading _ cs => cs
  | .paragraph cs => cs
  | .blockQuote cs => cs
  | .list cs => cs
  | .listItem cs => cs
  | .emphasis cs => cs
  | .link _ cs => cs
  | .text _ => []
  | .codeBlock _ => []
  | .horizontalRule => []

/-- `n.AsContainer() != nil`: Text, CodeBlock and HorizontalRule embed
ast.Leaf, every other variant embeds ast.Container. -/
def isContainerB : MDNode → Bool
  | .text _ => false
  | .codeBlock _ => false
  | .horizontalRule => false
  | _ => true

/-- `leafNode.Literal` for leaf nodes (HorizontalRule's literal is empty). -/
def leafLiteral : MDNode → String
  | .text s => s
  | .codeBlock s => s
  | _ => ""

mutual

/-- childLiterals (src/main.go:473): concatenates the literals under a
node: a leaf child contributes its literal, a container child recurses. -/
def childLiterals : MDNode → String
  | .document cs => litList cs
  | .heading _ cs => litList cs
  | .paragraph cs => litList cs
  | .blockQuote cs => litList cs
  | .list cs => litList cs
  | .listItem cs => litList cs
  | .emphasis cs => litList cs
  | .link _ cs => litList cs
  | .text _ => ""
  | .codeBlock _ => ""
  | .horizontalRule => ""

/-- The `for _, child := range node.GetChildren()` loop of childLiterals. -/
def litList : List MDNode → String
  | [] => ""
  | c :: rest =>
      (if isContainerB c then childLiterals c else leafLiteral c) ++ litList rest

end

/-! ## The ast.WalkFunc traversal and the parsePost visitor -/

/-- gomarkdown ast.WalkStatus. -/
inductive WalkStatus where
  | goToNext
  | skipChildren
  | terminate
deriving DecidableEq

/-- The two fields the parsePost visitor fills in. -/
structure PostAcc where
  title : String
  summary : String
deriving DecidableEq

/-- The visitor closure of parsePost (src/main.go:488-500): a level-1
heading seen while the title is still empty contributes its literals; the
first paragraph sets the summary and terminates the walk.  The `entering`
flag is ignored, exactly as in the source (`_ bool`). -/
def visit (p : PostAcc) (n : MDNode) (_entering : Bool) : PostAcc × WalkStatus :=
  match n with
  | .heading lvl cs =>
      if lvl == 1 && p.title == "" then
        ({ p with title := childLiterals (.heading lvl cs) }, .goToNext)
      else (p, .goToNext)
  | .paragraph cs => ({ p with summary := childLiterals (.paragraph cs) }, .terminate)
  | _ => (p, .goToNext)

mutual

/-- gomarkdown ast.Walk: entering visit, child loop for containers when
the status is not SkipChildren, exiting visit for containers; Terminate
propagates immediately, otherwise the node contributes GoToNext. -/
def walkNode (p : PostAcc) (n : MDNode) : PostAcc × WalkStatus :=
  let e1 := visit p n true
  if e1.2 = .terminate then (e1.1, .terminate)
  else
    let e2 :=
      if _h : isContainerB n = true ∧ e1.2 ≠ .skipChildren then
        walkChildren e1.1 (childrenOf n)
      else e1
    if e2.2 = .terminate then (e2.1, .terminate)
    else if isContainerB n then
      let e3 := visit e2.1 n false
      if e3.2 = .terminate then (e3.1, .terminate)
      else (e3.1, .goToNext)
    else (e2.1, .goToNext)
  termination_by sizeOf n
  decreasing_by
    rcases _h with ⟨hc, -⟩
    cases n <;> simp_all [childrenOf, isContainerB]

/-- The `for _, n := range children` loop of ast.Walk. -/
def walkChildren (p : PostAcc) (ns : List MDNode) : PostAcc × WalkStatus :=
  match ns with
  | [] => (p, .goToNext)
  | c :: rest =>
      let e := walkNode p c
      if e.2 = .terminate then (e.1, .terminate)
      else walkChildren e.1 rest
  termination_by sizeOf ns

end

/-- The effect of `ast.WalkFunc(rootnode, visitor)` in parsePost starting
from the zero-valued `var p post`. -/
def extractPostFields (root : MDNode) : PostAcc := (walkNode ⟨"", ""⟩ root).1

/-! ## Specification-side traversal vocabulary (pre-order sequences) -/

mutual

/-- Pre-order (entering-order) node sequence of a tree. -/
def preorder : MDNode → List MDNode
  | .document cs => .document cs :: preorderList cs
  | .heading lvl cs => .heading lvl cs :: preorderList cs
  | .paragraph cs => .paragraph cs :: preorderList cs
  | .blockQuote cs => .blockQuote cs :: preorderList cs
  | .list cs => .list cs :: preorderList cs
  | .listItem cs => .listItem cs :: preorderList cs
  | .emphasis cs => .emphasis cs :: preorderList cs
  | .link d cs => .link d cs :: preorderList cs
  | .text s => [.text s]
  | .codeBlock s => [.codeBlock s]
  | .horizontalRule => [.horizontalRule]

/-- Pre-order sequence of a forest. -/
def preorderList : List MDNode → List MDNode
  | [] => []
  | c :: rest => preorder c ++ preorderList rest

end

/-- Is the node a paragraph? -/
def isParaB : MDNode → Bool
  | .paragraph _ => true
  | _ => false

/-- Is the node a level-1 heading? -/
def isH1B : MDNode → Bool
  | .heading lvl _ => lvl == 1
  | _ => false

/-- The title update a single visited node performs. -/
def titleStep (t : String) (n : MDNode) : String :=
  if isH1B n && t == "" then childLiterals n else t

/-- Folding the title updates over a node sequence. -/
def foldTitle (t : String) (ns : List MDNode) : String := ns.foldl titleStep t

/-- First paragraph of a node sequence. -/
def firstPara (ns : List MDNode) : Option MDNode := ns.find? isParaB

/-- Prefix of a node sequence strictly before its first paragraph. -/
def prePara (ns : List MDNode) : List MDNode := ns.takeWhile (fun n => !isParaB n)

/-- Closed form of the walk over a node sequence: if the sequence has a
paragraph the walk terminates there, having folded the title updates over
the prefix before it and set the summary from that paragraph; otherwise
it folds the title updates over the whole sequence and leaves the summary
alone. -/
def walkSpec (p : PostAcc) (ns : List MDNode) : PostAcc × WalkStatus :=
  match firstPara ns with
  | some q => ({ title := foldTitle p.title (prePara ns), summary := childLiterals q }, .terminate)
  | none => ({ title := foldTitle p.title ns, summary := p.summary }, .goToNext)

/-- The summary rule as the spec words it: literal text of the first
paragraph in pre-order document order, empty if no paragraph exists. -/
def specSummary (root : MDNode) : String :=
  match firstPara (preorder root) with
  | some q => childLiterals q
  | none => ""

/-- The title rule exactly as claim C4 words it: the literals of the first
level-1 heading in pre-order document order, with all later level-1
headings ignored even when that first heading's text is empty. -/
def specTitleClaim (root : MDNode) : String :=
  match (preorder root).find? isH1B with
  | some h => childLiterals h
  | none => ""

/-- The amended title rule: the literals of the first level-1 heading with
non-empty literal text among the nodes visited before the walk stops at
the first paragraph; empty when no such heading exists. -/
def specTitle (root : MDNode) : String :=
  match (prePara (preorder root)).find? (fun n => isH1B n && !(childLiterals n == "")) with
  | some h => childLiterals h
  | none => ""

/-! ## Go standard-library string and path helpers (documented semantics,
modelled character-wise) -/

/-- strings.TrimPrefix: drop the prefix when present, else return s. -/
def trimPrefixGo (s pre : String) : String :=
  if pre.data.isPrefixOf s.data then String.mk (s.data.drop pre.data.length) else s

/-- strings.TrimSuffix: drop the suffix when present, else return s. -/
def trimSuffixGo (s suf : String) : String :=
  if suf.data.isSuffixOf s.data then
    String.mk (s.data.take (s.data.length - suf.data.length))
  else s

/-- Scan helper for filepath.Ext: walk the reversed characters until a
dot (return the extension including the dot) or a separator or the start
of the string (no extension). -/
def extRevAux : List Char → List Char → String
  | [], _ => ""
  | c :: rest, acc =>
      if c = '/' then ""
      else if c = '.' then String.mk (c :: acc)
      else extRevAux rest (c :: acc)

/-- filepath.Ext: the suffix beginning at the final dot in the final
slash-separated element; empty when there is no dot. -/
def extGo (p : String) : String := extRevAux p.data.reverse []

/-- Split a character list on slashes (accumulator holds the current
component reversed). -/
def splitSlashAux : List Char → List Char → List String
  | [], cur => [String.mk cur.reverse]
  | c :: rest, cur =>
      if c = '/' then String.mk cur.reverse :: splitSlashAux rest []
      else splitSlashAux rest (c :: cur)

/-- Does the path begin with a separator? -/
def isRooted (p : String) : Bool :=
  match p.data with
  | c :: _ => c == '/'
  | [] => false

/-- The element-processing loop of path.Clean: drop empty and dot
components, a dotdot pops the previous component unless the output is
empty (kept when the path is relative, dropped at a root). -/
def cleanLoop (rooted : Bool) : List String → List String → List String
  | [], acc => acc.reverse
  | c :: rest, acc =>
      if c = "" ∨ c = "." then cleanLoop rooted rest acc
      else if c = ".." then
        match acc with
        | [] => if rooted then cleanLoop rooted rest [] else cleanLoop rooted rest [".."]
        | a :: as =>
            if a = ".." then cleanLoop rooted rest (".." :: a :: as)
            else cleanLoop rooted rest as
      else cleanLoop rooted rest (c :: acc)

/-- Join components with single slashes. -/
def interSlash : List String → String
  | [] => ""
  | [s] => s
  | s :: rest => s ++ "/" ++ interSlash rest

/-- path.Clean (lexical simplification; "." for the empty result). -/
def cleanGo (p : String) : String :=
  if p = "" then "."
  else
    let comps := splitSlashAux p.data []
    let out := cleanLoop (isRooted p) comps []
    let s := (if isRooted p then "/" else "") ++ interSlash out
    if s = "" then "." else s

/-- filepath.Join: drop leading empty elements, join the rest with
slashes, Clean the result; empty when every element is empty. -/
def joinGo (elems : List String) : String :=
  match elems.dropWhile (fun e => e == "") with
  | [] => ""
  | rest => cleanGo (interSlash rest)

/-- filepath.Split: directory part (up to and including the final
separator) and file part. -/
def splitPathGo (p : String) : String × String :=
  let rev := p.data.reverse
  let fileRev := rev.takeWhile (fun c => !(c == '/'))
  (String.mk (rev.drop fileRev.length).reverse, String.mk fileRev.reverse)

/-! ## Time and post metadata -/

/-- A broken-down Go time.Time value as far as RFC 1123 formatting needs
it; weekday 0 is Sunday.  The value itself comes from decoding the
sidecar JSON, an external collaborator. -/
structure GoTime where
  year : Nat
  month : Nat
  day : Nat
  hour : Nat
  minute : Nat
  second : Nat
  weekday : Nat
  zone : String
deriving DecidableEq

/-- Go's three-letter weekday names. -/
def weekdayAbbrev : Nat → String
  | 0 => "Sun"
  | 1 => "Mon"
  | 2 => "Tue"
  | 3 => "Wed"
  | 4 => "Thu"
  | 5 => "Fri"
  | 6 => "Sat"
  | _ => ""

/-- Go's three-letter month names (months are 1-based). -/
def monthAbbrev : Nat → String
  | 1 => "Jan"
  | 2 => "Feb"
  | 3 => "Mar"
  | 4 => "Apr"
  | 5 => "May"
  | 6 => "Jun"
  | 7 => "Jul"
  | 8 => "Aug"
  | 9 => "Sep"
  | 10 => "Oct"
  | 11 => "Nov"
  | 12 => "Dec"
  | _ => ""

/-- Two-digit zero padding, as the RFC 1123 layout verbs 02, 15, 04, 05. -/
def pad2 (n : Nat) : String := if n < 10 then "0" ++ Nat.repr n else Nat.repr n

/-- time.Time.Format(time.RFC1123), layout "Mon, 02 Jan 2006 15:04:05 MST":
a fixed, locale-independent long-form date-time representation. -/
def formatRFC1123 (t : GoTime) : String :=
  weekdayAbbrev t.weekday ++ ", " ++ pad2 t.day ++ " " ++ monthAbbrev t.month ++ " " ++
    Nat.repr t.year ++ " " ++ pad2 t.hour ++ ":" ++ pad2 t.minute ++ ":" ++
    pad2 t.second ++ " " ++ t.zone

/-- postMetadata (src/main.go:458-461): posted date plus edit dates. -/
structure PostMetadata where
  datePosted : GoTime
  datesEdited : List GoTime
deriving DecidableEq

/-- post (src/main.go:463-469); `metadata` is a nullable pointer in the
source, hence an Option here. -/
structure Post where
  title : String
  summary : String
  url : String
  metadata : Option PostMetadata
deriving DecidableEq

/-- templateData (src/main.go:371-377); template.HTML fields are strings. -/
structure TemplateData where
  siteName : String
  body : String
  relRoot : String
deriving DecidableEq

/-- siteConfig (src/main.go:362-369). -/
structure SiteConfig where
  siteName : String
  sourcePath : String
  destinationPath : String
  pageTemplateFile : String
  resourcePath : String
  postPattern : String

/-! ## Document mutation: addDate -/

/-- ast.AppendChild: append the child to the parent's child list.  The
source only ever appends to container nodes (the parsed document root and
a freshly built paragraph); appending to a leaf is left as the identity
since that call never occurs. -/
def appendChild (parent child : MDNode) : MDNode :=
  match parent with
  | .document cs => .document (cs ++ [child])
  | .heading lvl cs => .heading lvl (cs ++ [child])
  | .paragraph cs => .paragraph (cs ++ [child])
  | .blockQuote cs => .blockQuote (cs ++ [child])
  | .list cs => .list (cs ++ [child])
  | .listItem cs => .listItem (cs ++ [child])
  | .emphasis cs => .emphasis (cs ++ [child])
  | .link d cs => .link d (cs ++ [child])
  | .text s => .text s
  | .codeBlock s => .codeBlock s
  | .horizontalRule => .horizontalRule

/-- The Go runtime's message for a nil-pointer dereference panic. -/
def nilDerefMsg : String :=
  "runtime error: invalid memory address or nil pointer dereference"

/-- addDate (src/main.go:586-599).  The first statement dereferences
`p.metadata.DatePosted`; when the metadata pointer is nil that is a
panic, modelled as `none`.  Otherwise a horizontal rule and a paragraph
holding the single text leaf "Posted: " plus the RFC 1123 date are
appended to the document's top-level children, in that order. -/
def addDate (doc : MDNode) (p : Post) : Option MDNode :=
  match p.metadata with
  | none => none
  | some m =>
      let dateStr := formatRFC1123 m.datePosted
      let footer := "Posted: " ++ dateStr
      let dateParagraph := appendChild (MDNode.paragraph []) (MDNode.text footer)
      some (appendChild (appendChild doc MDNode.horizontalRule) dateParagraph)

/-! ## Listing-page body synthesis -/

/-- One iteration of the bodystr loop (src/main.go:569): the Sprintf
format "%s%d. [%s](%s)\n    - %s\n" appends this entry text. -/
def listingEntry (idx : Nat) (p : Post) : String :=
  Nat.repr idx ++ ". [" ++ p.title ++ "](" ++ p.url ++ ")\n    - " ++ p.summary ++ "\n"

/-- The `for idx, p := range posts` accumulation of bodystr. -/
def listingBodyAux : List Post → Nat → String → String
  | [], _, bodystr => bodystr
  | p :: rest, idx, bodystr => listingBodyAux rest (idx + 1) (bodystr ++ listingEntry idx p)

/-- The synthesized listing body (src/main.go:567-570). -/
def listingBody (posts : List Post) : String := listingBodyAux posts 0 ""

/-- The listing body as the spec words it: the concatenation, in
collection order, of one entry per post with its zero-based index. -/
def specListingFrom : Nat → List Post → String
  | _, [] => ""
  | i, p :: rest => listingEntry i p ++ specListingFrom (i + 1) rest

/-- Spec-side listing body starting at index zero. -/
def specListing (posts : List Post) : String := specListingFrom 0 posts

/-! ## The pipeline

The run aborts in two distinct ways: a returned error reaches main and
`die` exits with status 1, and a nil dereference panics (also a non-zero
exit, but not by the error-return path). -/

inductive RunError where
  | fatal (msg : String)
  | nilDeref (msg : String)
deriving DecidableEq

/-- External collaborators of the pipeline, as abstract functions.
`readFile` is os.ReadFile on a source page; `metaFile` combines the
os.Stat/os.Open/json decode of a sidecar file (`none`: the file does not
exist, `some (.error e)`: it exists but opening or decoding fails,
`some (.ok pm)`: decoded metadata); `makeHTML` is the template load,
parse and execute of makeHTML (src/main.go:403) applied to the fixed
template file of the run; `parse` is parseMD; `render` is
markdown.Render with the fixed renderer; `rel` is filepath.Rel;
`mkdirOk`/`writeOk` tell whether os.MkdirAll/os.WriteFile succeed on the
given path; `matchesPost` is postre.MatchString for the compiled post
pattern. -/
structure Env where
  readFile : String → Except String String
  metaFile : String → Option (Except String PostMetadata)
  makeHTML : TemplateData → Except String String
  parse : String → MDNode
  render : MDNode → String
  rel : String → String → String
  mkdirOk : String → Bool
  writeOk : String → Bool
  matchesPost : String → Bool

/-- The sidecar path of readPostMetadata (src/main.go:513-514): the
source name with its extension replaced by ".meta.json". -/
def sidecarPath (fname : String) : String :=
  trimSuffixGo fname (extGo fname) ++ ".meta.json"

/-- readPostMetadata (src/main.go:511-535): an absent sidecar file is not
an error and yields no metadata; an open or decode failure is an error. -/
def readPostMetadataFn (env : Env) (fname : String) : Except String (Option PostMetadata) :=
  match env.metaFile (sidecarPath fname) with
  | none => .ok none
  | some (.error e) => .error ("reading post metadata " ++ sidecarPath fname ++ ": " ++ e)
  | some (.ok pm) => .ok (some pm)

/-- parsePost (src/main.go:485-503): parse the bytes and run the visitor
from the zero-valued post record. -/
def parsePost (parse : String → MDNode) (mdsource : String) : Post :=
  let acc := extractPostFields (parse mdsource)
  { title := acc.title, summary := acc.summary, url := "", metadata := none }

/-- Destination path derivation (src/main.go:633-638): strip the source
root prefix, replace the extension with ".html", join under the
destination root. -/
def outPathFor (srcpath destpath fname : String) : String :=
  let o1 := trimPrefixGo fname srcpath
  let o2 := trimSuffixGo o1 (extGo o1)
  let o3 := o2 ++ ".html"
  joinGo [destpath, o3]

/-- Post URL derivation (src/main.go:647-648): destination path with the
destination-root prefix and then a leading separator stripped. -/
def postURLFor (destpath outpath : String) : String :=
  trimPrefixGo (trimPrefixGo outpath destpath) "/"

/-- The post branch of the file loop (src/main.go:645-658): for a
pattern-matching file, extract the post fields, derive the URL, read the
sidecar metadata (aborting on a decode error) and call addDate on the
document — unconditionally, so nil metadata is the nil-dereference
panic; for other files the document and collection are untouched. -/
def postStep (env : Env) (destpath outpath : String) (doc : MDNode)
    (pagemd fname : String) : Except RunError (MDNode × Option Post) :=
  if env.matchesPost fname then
    let p0 := parsePost env.parse pagemd
    let p1 := { p0 with url := postURLFor destpath outpath }
    match readPostMetadataFn env fname with
    | .error e => .error (.fatal ("rendering pages: " ++ e))
    | .ok md =>
      let p2 := { p1 with metadata := md }
      match addDate doc p2 with
      | none => .error (.nilDeref nilDerefMsg)
      | some doc2 => .ok (doc2, some p2)
  else .ok (doc, none)

/-- The tail of the file loop (src/main.go:660-683): render the
(possibly mutated) document, create the parent directory when it is not
the destination root, compute the relative root, build the page via the
template and write it; every failure aborts. -/
def finishPage (env : Env) (destpath outpath : String) (data : TemplateData)
    (doc2 : MDNode) (post? : Option Post) :
    Except RunError (TemplateData × Option Post × (String × String)) :=
  let data1 := { data with body := env.render doc2 }
  let outpathpar := (splitPathGo outpath).1
  if outpathpar ≠ destpath ∧ env.mkdirOk outpathpar = false then
    .error (.fatal ("rendering pages: creating path " ++ outpathpar))
  else
    let data2 := { data1 with relRoot := env.rel outpathpar destpath }
    match env.makeHTML data2 with
    | .error e => .error (.fatal ("rending pages: " ++ e))
    | .ok htmlData =>
      if env.writeOk outpath then .ok (data2, post?, (outpath, htmlData))
      else .error (.fatal ("rendering pages: writing html file " ++ outpath))

/-- One iteration of the renderPages file loop (src/main.go:630-684):
derive the destination path, read the source bytes (aborting on error),
parse them, run the post branch, then render/template/write the page. -/
def processFile (env : Env) (srcpath destpath : String) (data : TemplateData)
    (fname : String) :
    Except RunError (TemplateData × Option Post × (String × String)) :=
  let outpath := outPathFor srcpath destpath fname
  match env.readFile fname with
  | .error e => .error (.fatal ("rendering pages: reading file " ++ fname ++ ": " ++ e))
  | .ok pagemd =>
    match postStep env destpath outpath (env.parse pagemd) pagemd fname with
    | .error e => .error e
    | .ok (doc2, post?) => finishPage env destpath outpath data doc2 post?

/-- Writes performed so far plus either the final loop state or the
abort. -/
structure LoopOut where
  writes : List (String × String)
  result : Except RunError (TemplateData × List Post)

/-- The renderPages file loop over the discovered files in order. -/
def renderPagesLoop (env : Env) (srcpath destpath : String) :
    TemplateData → List Post → List String → LoopOut
  | data, posts, [] => ⟨[], .ok (data, posts)⟩
  | data, posts, fname :: rest =>
    match processFile env srcpath destpath data fname with
    | .error e => ⟨[], .error e⟩
    | .ok (data2, post?, w) =>
      let out := renderPagesLoop env srcpath destpath data2 (posts ++ post?.toList) rest
      ⟨w :: out.writes, out.result⟩

/-- renderPostsPage (src/main.go:561-584): with a non-empty collection,
synthesize the listing body, parse and render it, wrap it via the
template and write posts.html under the destination root; with an empty
collection do nothing.  Returns the writes performed and the error, if
any. -/
def renderPostsPage (env : Env) (posts : List Post) (data : TemplateData)
    (destpath : String) : List (String × String) × Option String :=
  if posts.length > 0 then
    let bodystr := listingBody posts
    let doc := env.parse bodystr
    let data2 := { data with body := env.render doc }
    let outpath := joinGo [destpath, "posts.html"]
    match env.makeHTML data2 with
    | .error e => ([], some ("making html for posts page: " ++ e))
    | .ok htmlData =>
      if env.writeOk outpath then ([(outpath, htmlData)], none)
      else ([], some ("writing posts page " ++ outpath))
  else ([], none)

/-- renderPages (src/main.go:601-688) given the discovered markdown
files.  A loop abort propagates; after a completed loop the
renderPostsPage call's error return value is discarded (src/main.go:685),
so the function reports success regardless of it — modelled faithfully
here by returning `none` in that branch while still recording the
listing-page write when it happens. -/
def renderPages (env : Env) (conf : SiteConfig) (files : List String) :
    List (String × String) × Option RunError :=
  let data0 : TemplateData := { siteName := conf.siteName, body := "", relRoot := "" }
  let out := renderPagesLoop env conf.sourcePath conf.destinationPath data0 [] files
  match out.result with
  | .error e => (out.writes, some e)
  | .ok (data, posts) =>
    let pp := renderPostsPage env posts data conf.destinationPath
    (out.writes ++ pp.1, none)

/-- main's error handling (src/main.go:750-752): a renderPages error is
reported by `die` with exit status 1; success exits with status 0. -/
def renderPagesExit (env : Env) (conf : SiteConfig) (files : List String) :
    List (String × String) × Nat :=
  match renderPages env conf files with
  | (ws, none) => (ws, 0)
  | (ws, some _) => (ws, 1)

/-! ## Concrete instances used by the claim theorems and witnesses -/

/-- The default configuration (src/main.go:423-428). -/
def confDefault : SiteConfig :=
  ⟨"", "pages-md", "html", "templates/template.html", "res", "[0-9]\x7b8\x7d-.*"⟩

/-- A concrete timestamp: Sunday, 1 January 2023, 12:00:00 UTC. -/
def tX : GoTime := ⟨2023, 1, 1, 12, 0, 0, 0, "UTC"⟩

/-- Concrete sidecar metadata. -/
def pmX : PostMetadata := ⟨tX, []⟩

/-- An environment in which every source file matches the post pattern
and no sidecar metadata file exists. -/
def envNoMeta : Env where
  readFile := fun _ => .ok "# T"
  metaFile := fun _ => none
  makeHTML := fun _ => .ok "PAGE"
  parse := fun _ => .document []
  render := fun _ => "BODY"
  rel := fun _ _ => "."
  mkdirOk := fun _ => true
  writeOk := fun _ => true
  matchesPost := fun _ => true

/-- An environment in which metadata decoding succeeds but writing
html/posts.html fails. -/
def envPostsFail : Env :=
  { envNoMeta with
    metaFile := fun _ => some (.ok pmX)
    writeOk := fun p => !(p == "html/posts.html") }

/-- An environment in which no file matches the post pattern. -/
def envNoMatch : Env := { envNoMeta with matchesPost := fun _ => false }

/-! ## Basic lemmas about the tree vocabulary -/

theorem childLiterals_eq (n : MDNode) : childLiterals n = litList (childrenOf n) := by
  cases n <;> rfl

theorem preorder_eq (n : MDNode) : preorder n = n :: preorderList (childrenOf n) := by
  cases n <;> rfl

theorem visit_para (q : PostAcc) (cs : List MDNode) (b : Bool) :
    visit q (.paragraph cs) b = ({ q with summary := childLiterals (.paragraph cs) }, .terminate) := rfl

theorem visit_nonpara (q : PostAcc) (n : MDNode) (b : Bool) (h : isParaB n = false) :
    visit q n b = ({ q with title := titleStep q.title n }, .goToNext) := by
  cases n with
  | heading lvl cs =>
      show (if lvl == 1 && q.title == "" then
              ({ q with title := childLiterals (.heading lvl cs) }, WalkStatus.goToNext)
            else (q, .goToNext)) = _
      by_cases hc : (lvl == 1 && q.title == "") = true
      · rw [if_pos hc]
        have ht : titleStep q.title (.heading lvl cs) = childLiterals (.heading lvl cs) := by
          rw [titleStep, if_pos]
          show (isH1B (.heading lvl cs) && q.title == "") = true
          simpa [isH1B] using hc
        rw [ht]
      · rw [if_neg hc]
        have ht : titleStep q.title (.heading lvl cs) = q.title := by
          rw [titleStep, if_neg]
          show ¬(isH1B (.heading lvl cs) && q.title == "") = true
          simpa [isH1B] using hc
        rw [ht]
  | paragraph cs => simp [isParaB] at h
  | document cs => rfl
  | blockQuote cs => rfl
  | list cs => rfl
  | listItem cs => rfl
  | emphasis cs => rfl
  | link d cs => rfl
  | text s => rfl
  | codeBlock s => rfl
  | horizontalRule => rfl

theorem titleStep_leaf (t : String) (n : MDNode) (h : isH1B n = false) :
    titleStep t n = t := by
  simp [titleStep, h]

theorem foldTitle_cons (t : String) (n : MDNode) (l : List MDNode) :
    foldTitle t (n :: l) = foldTitle (titleStep t n) l := rfl

theorem foldTitle_append (t : String) (l1 l2 : List MDNode) :
    foldTitle t (l1 ++ l2) = foldTitle (foldTitle t l1) l2 := by
  simp [foldTitle, List.foldl_append]

theorem foldTitle_ne (t : String) (h : t ≠ "") (ns : List MDNode) : foldTitle t ns = t := by
  induction ns with
  | nil => rfl
  | cons c rest ih =>
      have hb : (t == "") = false := by simp [h]
      rw [foldTitle_cons]
      have hstep : titleStep t c = t := by simp [titleStep, hb]
      rw [hstep]
      exact ih

theorem foldTitle_eq_empty {t : String} {ns : List MDNode} (h : foldTitle t ns = "") :
    t = "" := by
  by_contra hne
  rw [foldTitle_ne t hne ns] at h
  exact hne h

theorem titleStep_foldTitle (t : String) (n : MDNode) (l : List MDNode) :
    titleStep (foldTitle (titleStep t n) l) n = foldTitle (titleStep t n) l := by
  by_cases hE : foldTitle (titleStep t n) l = ""
  · have h1 : titleStep t n = "" := foldTitle_eq_empty hE
    have hcl : isH1B n = true → childLiterals n = "" := by
      intro hH
      rw [titleStep] at h1
      split at h1
      · exact h1
      · next hcond =>
          subst h1
          simp [hH] at hcond
    rw [hE]
    by_cases hH : isH1B n = true
    · simp [titleStep, hH, hcl hH]
    · have hf : isH1B n = false := by simpa using hH
      simp [titleStep, hf]
  · have hb : (foldTitle (titleStep t n) l == "") = false := by simp [hE]
    rw [titleStep, hb, Bool.and_false]
    simp

theorem firstPara_cons_true {n : MDNode} (h : isParaB n = true) (l : List MDNode) :
    firstPara (n :: l) = some n := by
  simp [firstPara, List.find?_cons_of_pos, h]

theorem firstPara_cons_false {n : MDNode} (h : isParaB n = false) (l : List MDNode) :
    firstPara (n :: l) = firstPara l := by
  simp [firstPara, List.find?_cons_of_neg, h]

theorem prePara_cons_true {n : MDNode} (h : isParaB n = true) (l : List MDNode) :
    prePara (n :: l) = [] := by
  simp [prePara, List.takeWhile_cons, h]

theorem prePara_cons_false {n : MDNode} (h : isParaB n = false) (l : List MDNode) :
    prePara (n :: l) = n :: prePara l := by
  simp [prePara, List.takeWhile_cons, h]

theorem firstPara_append (l1 l2 : List MDNode) :
    firstPara (l1 ++ l2) =
      match firstPara l1 with
      | some q => some q
      | none => firstPara l2 := by
  induction l1 with
  | nil => simp [firstPara]
  | cons c rest ih =>
      by_cases h : isParaB c = true
      · simp [List.cons_append, firstPara_cons_true h]
      · have h2 : isParaB c = false := Bool.not_eq_true _ ▸ h
        simp only [List.cons_append, firstPara_cons_false h2]
        exact ih

theorem prePara_append_some {l1 : List MDNode} {q : MDNode}
    (h : firstPara l1 = some q) (l2 : List MDNode) :
    prePara (l1 ++ l2) = prePara l1 := by
  induction l1 with
  | nil => simp [firstPara] at h
  | cons c rest ih =>
      by_cases hc : isParaB c = true
      · simp [List.cons_append, prePara_cons_true hc]
      · have hc2 : isParaB c = false := Bool.not_eq_true _ ▸ hc
        have h2 : firstPara rest = some q := by
          rwa [firstPara_cons_false hc2] at h
        simp only [List.cons_append, prePara_cons_false hc2, ih h2]

theorem prePara_append_none {l1 : List MDNode}
    (h : firstPara l1 = none) (l2 : List MDNode) :
    prePara (l1 ++ l2) = l1 ++ prePara l2 := by
  induction l1 with
  | nil => simp
  | cons c rest ih =>
      have hc : isParaB c = false := by
        rcases hcc : isParaB c with _ | _
        · rfl
        · rw [firstPara_cons_true hcc] at h; exact absurd h (by simp)
      have h2 : firstPara rest = none := by rwa [firstPara_cons_false hc] at h
      simp only [List.cons_append, prePara_cons_false hc, ih h2]

theorem prePara_of_none {ns : List MDNode} (h : firstPara ns = none) : prePara ns = ns := by
  have h2 := prePara_append_none h ([] : List MDNode)
  simpa [prePara] using h2

/-! ## The closed form of the walk -/

theorem walkSpec_nil (p : PostAcc) : walkSpec p [] = (p, .goToNext) := rfl

theorem walkSpec_append (p : PostAcc) (l1 l2 : List MDNode) :
    (let e := walkSpec p l1
     if e.2 = WalkStatus.terminate then (e.1, WalkStatus.terminate)
     else walkSpec e.1 l2) = walkSpec p (l1 ++ l2) := by
  rcases h1 : firstPara l1 with _ | q
  · rcases h2 : firstPara l2 with _ | q
    · simp [walkSpec, h1, h2, firstPara_append, foldTitle_append]
    · simp [walkSpec, h1, h2, firstPara_append, foldTitle_append,
        prePara_append_none h1]
  · simp [walkSpec, h1, firstPara_append, prePara_append_some h1]

theorem walkNode_eq_container (p : PostAcc) (n : MDNode)
    (hc : isContainerB n = true)
    (hnp : isParaB n = false)
    (hwc : ∀ q, walkChildren q (childrenOf n) = walkSpec q (preorderList (childrenOf n))) :
    walkNode p n = walkSpec p (preorder n) := by
  have hv : ∀ q b, visit q n b = ({ q with title := titleStep q.title n }, .goToNext) :=
    fun q b => visit_nonpara q n b hnp
  rw [walkNode, preorder_eq n]
  rcases hFP : firstPara (preorderList (childrenOf n)) with _ | q
  · simp only [hv, hwc, walkSpec, hFP, hc, firstPara_cons_false hnp, foldTitle_cons]
    simp [titleStep_foldTitle]
  · simp only [hv, hwc, walkSpec, hFP, hc, firstPara_cons_false hnp,
      prePara_cons_false hnp, foldTitle_cons]
    simp

theorem walkNode_eq_leaf (p : PostAcc) (n : MDNode)
    (hc : isContainerB n = false) (hnp : isParaB n = false) (hch : childrenOf n = [])
    (hH : isH1B n = false) :
    walkNode p n = walkSpec p (preorder n) := by
  rw [walkNode, preorder_eq n, hch]
  simp [visit_nonpara _ _ _ hnp, hc, hnp, walkSpec, firstPara_cons_false hnp,
    preorderList, firstPara, foldTitle_cons, foldTitle, titleStep_leaf _ _ hH]

mutual

theorem walkNode_eq (p : PostAcc) (n : MDNode) : walkNode p n = walkSpec p (preorder n) := by
  cases n with
  | document cs => exact walkNode_eq_container p _ rfl rfl (fun q => walkChildren_eq q cs)
  | heading lvl cs => exact walkNode_eq_container p _ rfl rfl (fun q => walkChildren_eq q cs)
  | blockQuote cs => exact walkNode_eq_container p _ rfl rfl (fun q => walkChildren_eq q cs)
  | list cs => exact walkNode_eq_container p _ rfl rfl (fun q => walkChildren_eq q cs)
  | listItem cs => exact walkNode_eq_container p _ rfl rfl (fun q => walkChildren_eq q cs)
  | emphasis cs => exact walkNode_eq_container p _ rfl rfl (fun q => walkChildren_eq q cs)
  | link d cs => exact walkNode_eq_container p _ rfl rfl (fun q => walkChildren_eq q cs)
  | paragraph cs =>
      rw [walkNode, preorder_eq]
      simp [visit_para, walkSpec, firstPara_cons_true (show isParaB (.paragraph cs) = true from rfl),
        prePara_cons_true (show isParaB (.paragraph cs) = true from rfl), foldTitle]
  | text s => exact walkNode_eq_leaf p _ rfl rfl rfl rfl
  | codeBlock s => exact walkNode_eq_leaf p _ rfl rfl rfl rfl
  | horizontalRule => exact walkNode_eq_leaf p _ rfl rfl rfl rfl
  termination_by sizeOf n

theorem walkChildren_eq (p : PostAcc) (ns : List MDNode) :
    walkChildren p ns = walkSpec p (preorderList ns) := by
  cases ns with
  | nil => simp [walkChildren, preorderList, walkSpec_nil]
  | cons c rest =>
      rw [walkChildren]
      rw [walkNode_eq p c]
      rw [show preorderList (c :: rest) = preorder c ++ preorderList rest from rfl]
      rw [← walkSpec_append p (preorder c) (preorderList rest)]
      rcases h : (walkSpec p (preorder c)).2 with _ | _ | _ <;>
        simp only [h, reduceCtorEq, if_false, if_true, reduceIte] <;>
        first
          | rfl
          | exact walkChildren_eq _ rest
  termination_by sizeOf ns

end

/-- The walk's net effect on a tree, in closed form. -/
theorem extractPostFields_eq (root : MDNode) :
    extractPostFields root = (walkSpec ⟨"", ""⟩ (preorder root)).1 := by
  rw [extractPostFields, walkNode_eq]

/-- Folding the title updates from the empty title picks the literals of
the first level-1 heading whose literals are non-empty. -/
theorem foldTitle_empty (ns : List MDNode) :
    foldTitle "" ns =
      match ns.find? (fun n => isH1B n && !(childLiterals n == "")) with
      | some h => childLiterals h
      | none => "" := by
  induction ns with
  | nil => rfl
  | cons c rest ih =>
      rw [foldTitle_cons]
      by_cases hH : isH1B c = true
      · by_cases hcl : childLiterals c = ""
        · have hstep : titleStep "" c = "" := by simp [titleStep, hH, hcl]
          have hpred : (isH1B c && !(childLiterals c == "")) = false := by
            simp [hH, hcl]
          rw [hstep]
          simp only [List.find?_cons, hpred]
          exact ih
        · have hstep : titleStep "" c = childLiterals c := by simp [titleStep, hH]
          have hpred : (isH1B c && !(childLiterals c == "")) = true := by
            simp [hH, hcl]
          rw [hstep, foldTitle_ne _ hcl]
          simp only [List.find?_cons, hpred]
      · have hf : isH1B c = false := by simpa using hH
        have hstep : titleStep "" c = "" := by simp [titleStep, hf]
        have hpred : (isH1B c && !(childLiterals c == "")) = false := by
          simp [hf]
        rw [hstep]
        simp only [List.find?_cons, hpred]
        exact ih

/-! ## Listing-body lemmas -/

theorem listingBodyAux_eq (ps : List Post) : ∀ (i : Nat) (acc : String),
    listingBodyAux ps i acc = acc ++ specListingFrom i ps := by
  induction ps with
  | nil => intro i acc; simp [listingBodyAux, specListingFrom]
  | cons p rest ih =>
      intro i acc
      rw [listingBodyAux, specListingFrom, ih, String.append_assoc]

/-! ## Pipeline lemmas -/

/-- A successful finishPage passes the post record through untouched and
writes at the given destination path. -/
theorem finishPage_ok (env : Env) (destpath outpath : String)
    (data : TemplateData) (doc2 : MDNode) (post? : Option Post)
    (d2 : TemplateData) (q : Option Post) (w : String × String)
    (h : finishPage env destpath outpath data doc2 post? = .ok (d2, q, w)) :
    q = post? ∧ w.1 = outpath := by
  simp only [finishPage] at h
  split at h
  · exact absurd h (by simp)
  · split at h
    · exact absurd h (by simp)
    · split at h
      · simp only [Except.ok.injEq, Prod.mk.injEq] at h
        exact ⟨h.2.1.symm, by rw [← h.2.2]⟩
      · exact absurd h (by simp)

/-- For a file that does not match the post pattern the post branch is the
identity. -/
theorem postStep_nomatch (env : Env) (destpath outpath : String) (doc : MDNode)
    (pagemd fname : String) (hm : env.matchesPost fname = false) :
    postStep env destpath outpath doc pagemd fname = .ok (doc, none) := by
  rw [postStep, if_neg]
  simp [hm]

/-- The page write a successful processFile performs lands at the derived
destination path. -/
theorem processFile_write_path (env : Env) (srcpath destpath : String)
    (data : TemplateData) (fname : String) (d2 : TemplateData) (q : Option Post)
    (w : String × String)
    (h : processFile env srcpath destpath data fname = .ok (d2, q, w)) :
    w.1 = outPathFor srcpath destpath fname := by
  simp only [processFile] at h
  split at h
  · exact absurd h (by simp)
  · split at h
    · exact absurd h (by simp)
    · exact (finishPage_ok _ _ _ _ _ _ _ _ _ h).2

/-- A file that does not match the post pattern contributes no post
record. -/
theorem processFile_nomatch (env : Env) (srcpath destpath : String)
    (data : TemplateData) (fname : String) (hm : env.matchesPost fname = false)
    (d2 : TemplateData) (q : Option Post) (w : String × String)
    (h : processFile env srcpath destpath data fname = .ok (d2, q, w)) :
    q = none := by
  simp only [processFile] at h
  split at h
  · exact absurd h (by simp)
  · next pagemd hread =>
      split at h
      · exact absurd h (by simp)
      · next doc2 post? hstep =>
          rw [postStep_nomatch env destpath _ _ pagemd fname hm] at hstep
          simp only [Except.ok.injEq, Prod.mk.injEq] at hstep
          rw [(finishPage_ok _ _ _ _ _ _ _ _ _ h).1, ← hstep.2]

/-- Every write the file loop performs is a page write at a derived
destination path of one of the files. -/
theorem renderPagesLoop_writes (env : Env) (srcpath destpath : String) :
    ∀ (files : List String) (data : TemplateData) (posts : List Post),
    ∀ w ∈ (renderPagesLoop env srcpath destpath data posts files).writes,
      ∃ f ∈ files, w.1 = outPathFor srcpath destpath f := by
  intro files
  induction files with
  | nil => intro data posts w hw; simp [renderPagesLoop] at hw
  | cons f rest ih =>
      intro data posts w hw
      rw [renderPagesLoop] at hw
      split at hw
      · simp at hw
      · next d2 q w2 h =>
          simp only [List.mem_cons] at hw
          rcases hw with hw | hw
          · subst hw
            exact ⟨f, by simp, processFile_write_path env srcpath destpath data f _ _ _ h⟩
          · rcases ih _ _ w hw with ⟨g, hg, hgw⟩
            exact ⟨g, by simp [hg], hgw⟩

/-- When no file matches the post pattern the loop adds no post record. -/
theorem renderPagesLoop_nomatch (env : Env) (srcpath destpath : String) :
    ∀ (files : List String), (∀ f ∈ files, env.matchesPost f = false) →
    ∀ (data : TemplateData) (posts0 : List Post) (d : TemplateData) (ps : List Post),
      (renderPagesLoop env srcpath destpath data posts0 files).result = .ok (d, ps) →
      ps = posts0 := by
  intro files
  induction files with
  | nil =>
      intro _ data posts0 d ps h
      rw [renderPagesLoop] at h
      simp only [Except.ok.injEq, Prod.mk.injEq] at h
      exact h.2.symm
  | cons f rest ih =>
      intro hall data posts0 d ps h
      rw [renderPagesLoop] at h
      split at h
      · simp at h
      · next d2 q w hpf =>
          have hq : q = none :=
            processFile_nomatch env srcpath destpath data f (hall f (by simp)) d2 q w hpf
          subst hq
          have := ih (fun g hg => hall g (by simp [hg])) d2 (posts0 ++ (none : Option Post).toList) d ps h
          simpa using this

/-- Evaluation of the field extraction on the empty document. -/
theorem extract_document_nil : extractPostFields (MDNode.document []) = ⟨"", ""⟩ := by
  rw [extractPostFields_eq]
  rfl

/-! ## Claim theorems -/

/-- Claim C5: for every document tree, the extracted summary equals the
concatenated literal text of the first paragraph node encountered in
pre-order, depth-first order, or the empty string when no paragraph
exists; and the traversal terminates exactly when such a paragraph
exists (heading detection never terminates it). -/
theorem c5_summary_first_paragraph (root : MDNode) :
    (extractPostFields root).summary = specSummary root ∧
    ((walkNode ⟨"", ""⟩ root).2 = WalkStatus.terminate ↔
      (firstPara (preorder root)).isSome = true) := by
  constructor
  · rw [extractPostFields_eq, specSummary]
    rcases h : firstPara (preorder root) with _ | q <;> simp [walkSpec, h]
  · rw [walkNode_eq]
    rcases h : firstPara (preorder root) with _ | q <;> simp [walkSpec, h]

/-- A concrete tree refuting claim C4 as stated: the first level-1
heading has empty text, and the code then takes the second one. -/
def c4cex : MDNode := .document [.heading 1 [], .heading 1 [.text "B"]]

/-- Claim C4, counterexample: on a document whose first level-1 heading
has empty literal text followed by a second level-1 heading "B", the code
extracts the title "B", while the claimed rule (first level-1 heading in
pre-order, subsequent ones ignored even when the first one's text is
empty) yields the empty string. -/
theorem c4_counterexample :
    (extractPostFields c4cex).title = "B" ∧ specTitleClaim c4cex = "" ∧
    (extractPostFields c4cex).title ≠ specTitleClaim c4cex := by
  have h1 : (extractPostFields c4cex).title = "B" := by
    simp [c4cex, extractPostFields, walkNode, walkChildren, visit, childrenOf,
      isContainerB, childLiterals, litList, leafLiteral]
  have h2 : specTitleClaim c4cex = "" := by
    simp [c4cex, specTitleClaim, preorder, preorderList, firstPara, List.find?,
      isH1B, childLiterals, litList]
  exact ⟨h1, h2, by rw [h1, h2]; simp⟩

/-- Claim C4 as amended: for every document tree, the extracted title is
the concatenated literal text of the first level-1 heading with non-empty
literal text among the nodes visited before the walk terminates at the
first paragraph, and the empty string when no such heading exists — an
empty-texted level-1 heading does not suppress later ones, and headings
at or after the first paragraph are never considered. -/
theorem c4_title_amended (root : MDNode) :
    (extractPostFields root).title = specTitle root := by
  rw [extractPostFields_eq, specTitle]
  rcases h : firstPara (preorder root) with _ | q
  · simp only [walkSpec, h, prePara_of_none h]
    exact foldTitle_empty (preorder root)
  · simp only [walkSpec, h]
    exact foldTitle_empty (prePara (preorder root))

/-- Claim C6: the synthesized listing body is the concatenation, in
collection order, of one entry per post of the exact form
"N. [title](url)\n    - summary\n" with N the zero-based index; in
particular the two-post collection from the spec yields exactly the
quoted string. -/
theorem c6_listing_body :
    (∀ posts : List Post, listingBody posts = specListing posts) ∧
    listingBody [⟨"A", "sa", "a.html", none⟩, ⟨"B", "sb", "b.html", none⟩] =
      "0. [A](a.html)\n    - sa\n1. [B](b.html)\n    - sb\n" := by
  constructor
  · intro posts
    rw [listingBody, specListing, listingBodyAux_eq]
    simp
  · rfl

/-- Claim C7: with metadata present, appending the date footer grows the
document's top-level child count by exactly two, appending a horizontal
rule and then a paragraph whose sole child is a text leaf reading
"Posted: " followed by the RFC 1123 formatted date. -/
theorem c7_addDate_footer (cs : List MDNode) (p : Post) (m : PostMetadata)
    (h : p.metadata = some m) :
    ∃ doc2, addDate (.document cs) p = some doc2 ∧
      childrenOf doc2 = cs ++
        [MDNode.horizontalRule,
         MDNode.paragraph [MDNode.text ("Posted: " ++ formatRFC1123 m.datePosted)]] ∧
      (childrenOf doc2).length = cs.length + 2 := by
  refine ⟨MDNode.document ((cs ++ [MDNode.horizontalRule]) ++
      [MDNode.paragraph [MDNode.text ("Posted: " ++ formatRFC1123 m.datePosted)]]),
      ?_, ?_, ?_⟩
  · rw [addDate, h]
    rfl
  · simp [childrenOf]
  · simp [childrenOf]

/-- Witness for C7 at a concrete date (Sunday, 1 January 2023, noon UTC). -/
theorem c7_addDate_footer_witness :
    (⟨"T", "S", "u.html", some pmX⟩ : Post).metadata = some pmX ∧
    (∃ doc2, addDate (.document []) ⟨"T", "S", "u.html", some pmX⟩ = some doc2 ∧
      childrenOf doc2 = ([] : List MDNode) ++
        [MDNode.horizontalRule,
         MDNode.paragraph [MDNode.text ("Posted: " ++ formatRFC1123 pmX.datePosted)]] ∧
      (childrenOf doc2).length = ([] : List MDNode).length + 2) :=
  ⟨rfl, c7_addDate_footer [] ⟨"T", "S", "u.html", some pmX⟩ pmX rfl⟩

/-- Claim C8: the source file pages-md/blog/20230101-hello.md with source
root pages-md and destination root html yields the destination path
html/blog/20230101-hello.html, and the post URL strips the destination
root and the leading separator, giving blog/20230101-hello.html. -/
theorem c8_path_derivation :
    outPathFor "pages-md" "html" "pages-md/blog/20230101-hello.md" =
      "html/blog/20230101-hello.html" ∧
    postURLFor "html" (outPathFor "pages-md" "html" "pages-md/blog/20230101-hello.md") =
      "blog/20230101-hello.html" := by
  constructor <;> rfl

/-- Claim C2: addDate is total only when the post's metadata is present —
with nil metadata it dereferences a nil pointer; and renderPages invokes
addDate for every pattern-matching file regardless of whether
readPostMetadata returned nil, so the panic is reachable from the
pipeline whenever a pattern-matching file has no sidecar metadata file
and its bytes are readable. -/
theorem c2_addDate_nil_panics :
    (∀ (doc : MDNode) (p : Post), p.metadata = none → addDate doc p = none) ∧
    (∀ (env : Env) (srcpath destpath : String) (data : TemplateData)
        (fname pagemd : String),
      env.matchesPost fname = true →
      env.metaFile (sidecarPath fname) = none →
      env.readFile fname = .ok pagemd →
      processFile env srcpath destpath data fname =
        .error (.nilDeref nilDerefMsg)) := by
  constructor
  · intro doc p h
    rw [addDate, h]
  · intro env srcpath destpath data fname pagemd hm hmeta hread
    have hps : postStep env destpath (outPathFor srcpath destpath fname)
        (env.parse pagemd) pagemd fname = .error (.nilDeref nilDerefMsg) := by
      simp [postStep, hm, readPostMetadataFn, hmeta, addDate]
    simp [processFile, hread, hps]

/-- Witness for C2: a concrete environment with a matching file and no
sidecar metadata. -/
theorem c2_addDate_nil_panics_witness :
    envNoMeta.matchesPost "pages-md/20230101-a.md" = true ∧
    envNoMeta.metaFile (sidecarPath "pages-md/20230101-a.md") = none ∧
    envNoMeta.readFile "pages-md/20230101-a.md" = .ok "# T" ∧
    processFile envNoMeta "pages-md" "html" ⟨"", "", ""⟩ "pages-md/20230101-a.md" =
      .error (.nilDeref nilDerefMsg) :=
  ⟨rfl, rfl, rfl,
    c2_addDate_nil_panics.2 envNoMeta "pages-md" "html" ⟨"", "", ""⟩
      "pages-md/20230101-a.md" "# T" rfl rfl rfl⟩

/-- Claim C1, code behaviour at the failing input: a run over a single
post-pattern file whose sidecar metadata file is absent does not produce
a completed Post Record with metadata none and a footer-free rendering —
it aborts with the nil-dereference panic from addDate before any page is
written. -/
theorem c1_missing_metadata_run_panics :
    renderPages envNoMeta confDefault ["pages-md/20230101-a.md"] =
      ([], some (RunError.nilDeref nilDerefMsg)) := rfl

/-- Claim C3, code behaviour at the failing input: in a run where every
page write succeeds but writing html/posts.html fails, the file loop
finishes with a non-empty post collection, renderPostsPage returns an
error, yet the run exits with status 0 because renderPages discards
renderPostsPage's return value — so not every error terminates the run
with a non-zero exit status. -/
theorem c3_posts_page_error_discarded :
    ∃ (data : TemplateData) (posts : List Post),
      (renderPagesLoop envPostsFail "pages-md" "html" ⟨"", "", ""⟩ []
          ["pages-md/20230101-a.md"]).result = .ok (data, posts) ∧
      posts ≠ [] ∧
      (renderPostsPage envPostsFail posts data "html").2 =
        some ("writing posts page " ++ "html/posts.html") ∧
      renderPagesExit envPostsFail confDefault ["pages-md/20230101-a.md"] =
        ([("html/20230101-a.html", "PAGE")], 0) := by
  refine ⟨_, _, rfl, ?_, ?_, ?_⟩
  · simp
  · rfl
  · rfl

/-- Claim C9: in every run in which no discovered file matches the post
pattern, the accumulated post collection is empty, the listing step
contributes no write (the run's writes are exactly the file loop's page
writes), and every write lands at a derived page destination path of one
of the source files. -/
theorem c9_no_match_no_listing (env : Env) (conf : SiteConfig) (files : List String)
    (h : ∀ f ∈ files, env.matchesPost f = false) :
    (∀ data posts,
        (renderPagesLoop env conf.sourcePath conf.destinationPath
            { siteName := conf.siteName, body := "", relRoot := "" } [] files).result =
          .ok (data, posts) → posts = []) ∧
    (renderPages env conf files).1 =
      (renderPagesLoop env conf.sourcePath conf.destinationPath
        { siteName := conf.siteName, body := "", relRoot := "" } [] files).writes ∧
    (∀ w ∈ (renderPages env conf files).1,
        ∃ f ∈ files, w.1 = outPathFor conf.sourcePath conf.destinationPath f) := by
  have hempty := renderPagesLoop_nomatch env conf.sourcePath conf.destinationPath files h
  have hwrites : (renderPages env conf files).1 =
      (renderPagesLoop env conf.sourcePath conf.destinationPath
        { siteName := conf.siteName, body := "", relRoot := "" } [] files).writes := by
    simp only [renderPages]
    rcases hres : (renderPagesLoop env conf.sourcePath conf.destinationPath
        { siteName := conf.siteName, body := "", relRoot := "" } [] files).result
      with e | dp
    · simp [hres]
    · rcases dp with ⟨data, posts⟩
      have hp : posts = [] := hempty _ _ _ _ hres
      subst hp
      simp [hres, renderPostsPage]
  refine ⟨fun data posts hres => hempty _ _ _ _ hres, hwrites, ?_⟩
  intro w hw
  rw [hwrites] at hw
  exact renderPagesLoop_writes env conf.sourcePath conf.destinationPath files _ _ w hw

/-- Witness for C9: a one-file run in which nothing matches the post
pattern. -/
theorem c9_no_match_no_listing_witness :
    (∀ f ∈ ["pages-md/a.md"], envNoMatch.matchesPost f = false) ∧
    ((∀ data posts,
        (renderPagesLoop envNoMatch confDefault.sourcePath confDefault.destinationPath
            { siteName := confDefault.siteName, body := "", relRoot := "" } []
            ["pages-md/a.md"]).result = .ok (data, posts) → posts = []) ∧
     (renderPages envNoMatch confDefault ["pages-md/a.md"]).1 =
       (renderPagesLoop envNoMatch confDefault.sourcePath confDefault.destinationPath
         { siteName := confDefault.siteName, body := "", relRoot := "" } []
         ["pages-md/a.md"]).writes ∧
     (∀ w ∈ (renderPages envNoMatch confDefault ["pages-md/a.md"]).1,
         ∃ f ∈ ["pages-md/a.md"],
           w.1 = outPathFor confDefault.sourcePath confDefault.destinationPath f)) :=
  ⟨fun _f _ => rfl,
    c9_no_match_no_listing envNoMatch confDefault ["pages-md/a.md"] (fun _f _ => rfl)⟩

end Statiko
